import Mathlib

set_option maxRecDepth 8000

/-!
Verification development for the `malawi-farm-yield-predict` web application.

The development shallowly embeds the three request-scoped computations of the
repository:

* the predict route handler `POST` of `src/app/api/predict/route.ts`,
* the upload route handler (the second compilation unit of `src/app/page.tsx`),
* the client-side chart-state updates `handlePredict` / `handleFileUpload` of
  `src/app/page.tsx`.

JavaScript numbers are modelled as rationals (`ℚ`); `NaN` results of numeric
parsing are modelled as `Option ℚ` with `none` playing the role of `NaN`.
Upstream LLM replies are opaque inputs, so the handler is parameterised by an
`Upstream` record describing the replies the vendor SDKs would deliver, and it
returns the list of upstream calls it performed alongside its HTTP response.
-/

/-! ### JavaScript numeric/string primitives

Models of the JavaScript built-ins the repository uses: `parseFloat`,
`Number.prototype.toFixed(2)`, single-character string indexing `s[i]`, and
`String.prototype.trim` on the single-character strings the code applies it to.
-/

/-- The decimal digit character for `d` (meaningful for `d < 10`). -/
def digitChar (d : ℕ) : Char := Char.ofNat (48 + d)

/-- Numeric value of a digit character. -/
def digitVal (c : Char) : ℕ := c.toNat - 48

/-- Value of a big-endian list of decimal digit characters. -/
def natOfDigits (ds : List Char) : ℕ := ds.foldl (fun a c => 10 * a + digitVal c) 0

/-- Model of JavaScript `parseFloat` on a character list, restricted to plain
decimal notation (optional sign, integer digits, optional fraction digits; no
exponent), which covers every string this application feeds to `parseFloat`.
`none` models a `NaN` result. Trailing non-numeric characters are ignored,
as in JavaScript. -/
def parseFloatChars (cs0 : List Char) : Option ℚ :=
  let cs := cs0.dropWhile Char.isWhitespace
  let sc : ℚ × List Char :=
    match cs with
    | [] => (1, [])
    | c :: t => if c = '-' then (-1, t) else if c = '+' then (1, t) else (1, c :: t)
  let ds := sc.2.takeWhile Char.isDigit
  let rest := sc.2.dropWhile Char.isDigit
  let fs : List Char :=
    match rest with
    | '.' :: t => t.takeWhile Char.isDigit
    | _ => []
  if ds.isEmpty && fs.isEmpty then none
  else some (sc.1 * ((natOfDigits ds : ℚ) + (natOfDigits fs : ℚ) / 10 ^ fs.length))

/-- Model of JavaScript `parseFloat` on a string. -/
def parseFloat (s : String) : Option ℚ := parseFloatChars s.toList

/-- Big-endian decimal digit characters of `n`, with explicit fuel so that the
definition is structurally recursive (any `fuel > n` is sufficient). -/
def natStrAux : ℕ → ℕ → List Char
  | 0, _ => []
  | fuel + 1, n => if n < 10 then [digitChar n] else natStrAux fuel (n / 10) ++ [digitChar (n % 10)]

/-- Big-endian decimal digit characters of `n`. -/
def natStrChars (n : ℕ) : List Char := natStrAux (n + 1) n

/-- Model of JavaScript `Number.prototype.toFixed(2)` for the nonnegative
values this application formats (the predict handler only formats a prediction
after checking `0 ≤ prediction ≤ 10`). ECMAScript picks the integer `n` with
`n / 10^2` closest to the value, preferring the larger on ties, which is
`round` on rationals. -/
def toFixed2 (v : ℚ) : String :=
  let m : ℕ := (round (v * 100)).toNat
  (natStrChars (m / 100) ++ '.' :: [digitChar (m % 100 / 10), digitChar (m % 100 % 10)]).asString

/-- JavaScript `s[i]`: the single-character string at index `i`, or `undefined`
(modelled as `none`) past the end. -/
def charAt (s : String) (i : ℕ) : Option Char := s.toList[i]?

/-- `parseFloat(s[i])`: `parseFloat(undefined)` is `NaN`, hence `none`. -/
def parseCharAt (s : String) (i : ℕ) : Option ℚ :=
  match charAt s i with
  | none => none
  | some c => parseFloatChars [c]

/-- `s[i].trim()`: accessing `.trim` on `undefined` throws a `TypeError`
(surfaced by the route's catch-all as a 500); on a one-character string,
`trim` empties it exactly when the character is whitespace. -/
def charComment (s : String) (i : ℕ) : Except String String :=
  match charAt s i with
  | none => Except.error "TypeError: Cannot read properties of undefined"
  | some c => Except.ok (if c.isWhitespace then "" else String.singleton c)

/-! ### Predict route handler (`src/app/api/predict/route.ts`)

The handler is modelled as a pure function of the request fields, the
upstream replies, and the wall-clock timestamp. Its result is the HTTP
response paired with the list of upstream provider calls performed, so that
the "no upstream call" / "exactly one upstream call" properties are statable.
-/

/-- Content-block types of the Anthropic messages SDK used by the route
(`@anthropic-ai/sdk`, model `claude-3-sonnet-20240229`): a reply block is
either a `text` block or a `tool_use` block. -/
inductive AnthropicBlockType where
  | text
  | toolUse
deriving DecidableEq

/-- The `type` string of an Anthropic content block. -/
def blockTypeString : AnthropicBlockType → String
  | .text => "text"
  | .toolUse => "tool_use"

/-- The upstream replies the vendor SDKs would deliver to the handler:
the opaque external half of a predict request. -/
structure Upstream where
  /-- `response.content[0].type` of the Anthropic reply; `none` models an
  empty `content` array (so `content[0]` is `undefined`). -/
  anthropicBlock : Option AnthropicBlockType
  /-- `completion.choices[0].message.content` of the OpenAI reply; the empty
  string models the falsy cases (`null` or `""`). -/
  openaiContent : String
  /-- `completion.choices[0].message.content` of the Deepseek reply. -/
  deepseekContent : String
  /-- Whether `LLAMA_API_KEY` is configured (`llamaAPI` non-null). -/
  llamaConfigured : Bool
  /-- Parsed `function_call.arguments` of the Llama reply: `none` models a
  failed call or unparseable arguments, `some (y?, c)` a reply whose `yield`
  field is the number `y?` (`none` for a missing/non-numeric field, which the
  `isNaN` gate treats as `NaN`) and whose `comment` field is `c`. -/
  llamaResult : Option (Option ℚ × String)

/-- HTTP response of the predict route. -/
inductive Resp where
  /-- A 200 response `{prediction, comment, provider, rainfall, timestamp}`. -/
  | ok (prediction comment provider : String) (rainfall : ℚ) (timestamp : String)
  /-- A 400 response `{error: msg}`. -/
  | clientError (msg : String)
  /-- A 500 response `{error: msg}`. -/
  | serverError (msg : String)
deriving DecidableEq

/-- The provider allow-list actually enforced by the route
(`['openai', 'anthropic', 'llama'].includes(provider)`). -/
def allowedProviders : List String := ["openai", "anthropic", "llama"]

/-- The provider dispatch (lines 74–181 of `route.ts`): performs the upstream
call for the selected provider and extracts `(prediction, comment)` from the
reply, where the prediction is `Option ℚ` (`none` = `NaN`). An `error` result
models a thrown exception, which the route's catch-all turns into a 500.
The second component records the upstream calls performed. -/
def runProvider (provider : String) (up : Upstream) :
    Except String (Option ℚ × String) × List String :=
  if provider = "anthropic" then
    match up.anthropicBlock with
    | none =>
      -- `response.content[0]` is `undefined`, so reading `.type` throws.
      (Except.error "TypeError: Cannot read properties of undefined", ["anthropic"])
    | some bt =>
      -- `const match = response.content[0].type` is the block's *type string*;
      -- the code then indexes into that string as if it were a regex match.
      let ts := blockTypeString bt
      if ts = "" then (Except.error "Failed to parse Anthropic response", ["anthropic"])
      else
        match charComment ts 2 with
        | Except.error e => (Except.error e, ["anthropic"])
        | Except.ok cm => (Except.ok (parseCharAt ts 1, cm), ["anthropic"])
  else if provider = "openai" then
    -- `const match = completion.choices[0].message.content`; `prediction`
    -- is `parseFloat(match[1])`, a parse of the single character at index 1.
    if up.openaiContent = "" then
      (Except.error "Failed to parse OpenAI response", ["openai"])
    else
      match charComment up.openaiContent 2 with
      | Except.error e => (Except.error e, ["openai"])
      | Except.ok cm => (Except.ok (parseCharAt up.openaiContent 1, cm), ["openai"])
  else if provider = "deepseek" then
    -- Identical to the OpenAI branch (it even reuses the OpenAI error text),
    -- but dispatched against the Deepseek model.
    if up.deepseekContent = "" then
      (Except.error "Failed to parse OpenAI response", ["deepseek"])
    else
      match charComment up.deepseekContent 2 with
      | Except.error e => (Except.error e, ["deepseek"])
      | Except.ok cm => (Except.ok (parseCharAt up.deepseekContent 1, cm), ["deepseek"])
  else if provider = "llama" then
    if !up.llamaConfigured then
      -- `if (!llamaAPI) throw ...` happens before any call is made.
      (Except.error "Llama API not configured - missing API key", [])
    else
      match up.llamaResult with
      | none => (Except.error "Failed to get prediction from Llama API", ["llama"])
      | some (y, cm) => (Except.ok (y, cm), ["llama"])
  else
    (Except.error "Invalid provider", [])

/-- The predict route handler `POST` of `src/app/api/predict/route.ts`,
as a function of the (numeric) `rainfall` and `provider` request fields, the
upstream replies `up`, and the current timestamp `now`. The JavaScript
falsiness test `!rainfall` holds for the number `0` (and only for `0` among
the finite numbers modelled here), which is why the first guard compares
against `0`. Returns the response and the upstream calls performed. -/
def predictPOST (rainfall : ℚ) (provider : String) (up : Upstream) (now : String) :
    Resp × List String :=
  if rainfall = 0 ∨ provider = "" then
    (Resp.clientError "Missing required fields", [])
  else if rainfall < 0 ∨ 5000 < rainfall then
    (Resp.clientError "Invalid rainfall value", [])
  else if provider ∉ allowedProviders then
    (Resp.clientError "Invalid provider", [])
  else
    match runProvider provider up with
    | (Except.error msg, calls) => (Resp.serverError msg, calls)
    | (Except.ok (pred, cm), calls) =>
      match pred with
      | none => (Resp.serverError "Invalid prediction value", calls)
      | some v =>
        if v < 0 ∨ 10 < v then (Resp.serverError "Invalid prediction value", calls)
        else (Resp.ok (toFixed2 v) cm provider rainfall now, calls)

/-! ### Upload route handler (`/api/upload`, second unit of `src/app/page.tsx`)

The handler parses the uploaded file with `csv-parse`'s `parse(buffer,
{columns: true, skip_empty_lines: true})`: records are newline-delimited, the
first non-empty record is consumed as the header, empty records are skipped,
and a data record whose field count differs from the header's raises an
`Invalid Record Length` error. The model covers unquoted, `\n`-delimited CSV
input, which is the shape this application's CSV path handles. -/

/-- Split a character list at every occurrence of `sep` (like
`String.prototype.split` / csv record and field delimiting). -/
def splitOnChar (sep : Char) : List Char → List (List Char)
  | [] => [[]]
  | c :: cs =>
    match splitOnChar sep cs with
    | [] => [[]]
    | r :: rs => if c = sep then [] :: r :: rs else (c :: r) :: rs

/-- The non-empty lines of the file (`skip_empty_lines: true`). -/
def nonEmptyLines (cs : List Char) : List (List Char) :=
  (splitOnChar '\n' cs).filter (· ≠ [])

/-- The comma-separated fields of one CSV record. -/
def splitFields (line : List Char) : List (List Char) := splitOnChar ',' line

/-- A parsed CSV record under `columns: true`: column name / field value
pairs, in column order. -/
abbrev CsvRecord := List (List Char × List Char)

/-- Model of `parse(buffer, {columns: true, skip_empty_lines: true})`:
the first non-empty line is the header; every data row must have exactly as
many fields as the header, else the parser throws; each surviving row becomes
a record object pairing column names with field values. -/
def parseCSV (cs : List Char) : Except String (List CsvRecord) :=
  match nonEmptyLines cs with
  | [] => Except.ok []
  | h :: rows =>
    let hs := splitFields h
    if rows.all (fun r => (splitFields r).length = hs.length) then
      Except.ok (rows.map (fun r => hs.zip (splitFields r)))
    else
      Except.error "Invalid Record Length"

/-- `record.rainfall` / `record.yield`: property access on the record object,
which is the first field whose column name matches (or `undefined`). -/
def assocLookup (k : List Char) : CsvRecord → Option (List Char)
  | [] => none
  | (k', v) :: t => if k' = k then some v else assocLookup k t

/-- `parseFloat(record.col)`: `parseFloat(undefined)` is `NaN` (`none`). -/
def lookupParse (k : List Char) (rec : CsvRecord) : Option ℚ :=
  match assocLookup k rec with
  | none => none
  | some v => parseFloatChars v

/-- HTTP response of the upload route. -/
inductive UploadResp where
  /-- A 200 response `{success: true, data}`; each data element is the
  `(rainfall, yield)` pair of one CSV row, `none` modelling `NaN`. -/
  | okData (data : List (Option ℚ × Option ℚ))
  /-- A `{success: false, message}` response with the given HTTP status. -/
  | err (status : ℕ) (message : String)
deriving DecidableEq

/-- The upload route handler `POST`: fails on a missing file (400) or a CSV
structural parse failure (500); otherwise maps every parsed record to the
numeric parses of its `rainfall` and `yield` fields. -/
def uploadPOST : Option String → UploadResp
  | none => UploadResp.err 400 "No file uploaded"
  | some s =>
    match parseCSV s.toList with
    | Except.error _ => UploadResp.err 500 "Error parsing CSV file"
    | Except.ok records =>
      UploadResp.okData (records.map (fun rec =>
        (lookupParse "rainfall".toList rec, lookupParse "yield".toList rec)))

/-- Structural well-formedness of an (unquoted) CSV file: every non-empty
line has the same number of comma-separated fields as the first one. This is
exactly the condition under which `csv-parse` raises no structural error;
note it says nothing about the first line being a genuine header. -/
def csvWellFormed (cs : List Char) : Bool :=
  match nonEmptyLines cs with
  | [] => true
  | h :: rows => rows.all (fun r => (splitFields r).length = (splitFields h).length)

/-- First index of column `k` in a header, if present. -/
def colIndex (k : List Char) : List (List Char) → Option ℕ
  | [] => none
  | h :: t => if h = k then some 0 else (colIndex k t).map (· + 1)

/-! ### Client-side chart state (`src/app/page.tsx`)

The UI owns `chartData : PredictionData[]`. `handlePredict` appends the new
point, sorts by rainfall, and keeps, for every `(rainfall, provider)` pair,
only the element at the first index with that pair
(`i === a.findIndex(t => t.rainfall === v.rainfall && t.provider === v.provider)`).
`handleFileUpload` appends the uploaded rows tagged `historical`, with no
sorting and no deduplication. -/

/-- The `provider` tag of a charted point. -/
inductive ClientProvider where
  | openai
  | anthropic
  | llama
  | historical
deriving DecidableEq

/-- A charted prediction point (the `PredictionData` interface). -/
structure PredictionData where
  rainfall : ℚ
  yield : ℚ
  provider : ClientProvider
  timestamp : String
  comment : Option String
deriving DecidableEq

/-- The `(rainfall, provider)` deduplication key of a point. -/
def pairKey (p : PredictionData) : ℚ × ClientProvider := (p.rainfall, p.provider)

/-- Ordered insertion before the first element of greater-or-equal rainfall:
the building block of the unique stable sort by rainfall. -/
def insertByRainfall (p : PredictionData) : List PredictionData → List PredictionData
  | [] => [p]
  | q :: qs =>
    if p.rainfall ≤ q.rainfall then p :: q :: qs else q :: insertByRainfall p qs

/-- Stable sort of the chart data by ascending rainfall. ECMAScript requires
`Array.prototype.sort` to be stable, and a stable sort for the comparator
`(a, b) => a.rainfall - b.rainfall` is unique, so this insertion sort (which
keeps earlier elements of equal rainfall first) computes exactly the
JavaScript result. -/
def sortByRainfall : List PredictionData → List PredictionData
  | [] => []
  | p :: ps => insertByRainfall p (sortByRainfall ps)

/-- The `filter`/`findIndex` deduplication: an element is kept precisely when
no earlier element of the list has the same `(rainfall, provider)` key;
`seen` accumulates the keys of the earlier elements. -/
def keepFirstAux (seen : List (ℚ × ClientProvider)) :
    List PredictionData → List PredictionData
  | [] => []
  | p :: ps =>
    if pairKey p ∈ seen then keepFirstAux seen ps
    else p :: keepFirstAux (pairKey p :: seen) ps

/-- Keep only the first element of each `(rainfall, provider)` key. -/
def keepFirst (l : List PredictionData) : List PredictionData := keepFirstAux [] l

/-- The chart-state update performed by `handlePredict` (lines 80–85 of
`page.tsx`): append the new point, stably sort by rainfall, then keep only
first occurrences of each `(rainfall, provider)` key. -/
def handlePredictUpdate (prev : List PredictionData) (np : PredictionData) :
    List PredictionData :=
  keepFirst (sortByRainfall (prev ++ [np]))

/-- The chart-state update performed by `handleFileUpload` (lines 109–115 of
`page.tsx`): spread each uploaded `{rainfall, yield}` row into a point tagged
`historical` with a fresh timestamp, and append — no sorting, no
deduplication. -/
def handleFileUploadUpdate (prev : List PredictionData) (rows : List (ℚ × ℚ))
    (now : String) : List PredictionData :=
  prev ++ rows.map (fun it =>
    { rainfall := it.1, yield := it.2, provider := ClientProvider.historical,
      timestamp := now, comment := none })

/-! ### Decimal rendering and parsing lemmas -/

/-- Everything needed about the ten digit characters, by computation. -/
lemma digitChar_facts : ∀ d : Fin 10,
    (digitChar d.val).isDigit = true ∧ digitVal (digitChar d.val) = d.val ∧
    (digitChar d.val).isWhitespace = false ∧ digitChar d.val ≠ '-' ∧
    digitChar d.val ≠ '+' ∧ digitChar d.val ≠ '.' := by
  decide

/-- A character list is a list of decimal digit characters. -/
def DigitChars (l : List Char) : Prop := ∀ c ∈ l, ∃ d, d < 10 ∧ c = digitChar d

lemma digitVal_digitChar {d : ℕ} (h : d < 10) : digitVal (digitChar d) = d :=
  (digitChar_facts ⟨d, h⟩).2.1

lemma digitChars_append {l1 l2 : List Char} (h1 : DigitChars l1) (h2 : DigitChars l2) :
    DigitChars (l1 ++ l2) := by
  intro c hc
  rcases List.mem_append.mp hc with h | h
  · exact h1 c h
  · exact h2 c h

lemma digitChars_isDigit {l : List Char} (h : DigitChars l) : ∀ c ∈ l, c.isDigit = true := by
  intro c hc
  obtain ⟨d, hd, rfl⟩ := h c hc
  exact (digitChar_facts ⟨d, hd⟩).1

lemma natStrAux_digitChars : ∀ fuel n, DigitChars (natStrAux fuel n) := by
  intro fuel
  induction fuel with
  | zero => intro n c hc; simp [natStrAux] at hc
  | succ fuel ih =>
    intro n
    by_cases h10 : n < 10
    · intro c hc
      simp [natStrAux, h10] at hc
      exact ⟨n, h10, hc⟩
    · simp only [natStrAux, if_neg h10]
      refine digitChars_append (ih (n / 10)) ?_
      intro c hc
      simp at hc
      exact ⟨n % 10, Nat.mod_lt _ (by norm_num), hc⟩

lemma natStrAux_ne_nil : ∀ fuel n, n < fuel → natStrAux fuel n ≠ [] := by
  intro fuel n h
  cases fuel with
  | zero => omega
  | succ fuel =>
    by_cases h10 : n < 10 <;> simp [natStrAux, h10]

lemma natOfDigits_append_digit (ds : List Char) (c : Char) :
    natOfDigits (ds ++ [c]) = 10 * natOfDigits ds + digitVal c := by
  simp [natOfDigits, List.foldl_append]

lemma natOfDigits_natStrAux : ∀ fuel n, n < fuel → natOfDigits (natStrAux fuel n) = n := by
  intro fuel
  induction fuel with
  | zero => intro n h; omega
  | succ fuel ih =>
    intro n h
    by_cases h10 : n < 10
    · simp [natStrAux, h10, natOfDigits, digitVal_digitChar h10]
    · have hdiv : n / 10 < fuel := by
        have := Nat.div_lt_self (by omega : 0 < n) (by norm_num : 1 < 10)
        omega
      simp only [natStrAux, if_neg h10]
      rw [natOfDigits_append_digit, ih (n / 10) hdiv,
        digitVal_digitChar (Nat.mod_lt _ (by norm_num))]
      omega

lemma natOfDigits_natStrChars (n : ℕ) : natOfDigits (natStrChars n) = n :=
  natOfDigits_natStrAux (n + 1) n (Nat.lt_succ_self n)

lemma takeWhile_append_stop {p : Char → Bool} :
    ∀ l1 : List Char, (∀ c ∈ l1, p c = true) → ∀ a, p a = false → ∀ l2,
      ((l1 ++ a :: l2).takeWhile p = l1 ∧ (l1 ++ a :: l2).dropWhile p = a :: l2) := by
  intro l1
  induction l1 with
  | nil =>
    intro _ a ha l2
    simp [List.takeWhile, List.dropWhile, ha]
  | cons c cs ih =>
    intro h a ha l2
    have hc : p c = true := h c (by simp)
    have hcs : ∀ x ∈ cs, p x = true := fun x hx => h x (by simp [hx])
    obtain ⟨h1, h2⟩ := ih hcs a ha l2
    simp [List.takeWhile_cons, List.dropWhile_cons, hc, h1, h2]

lemma takeWhile_all {p : Char → Bool} :
    ∀ l : List Char, (∀ c ∈ l, p c = true) → l.takeWhile p = l := by
  intro l
  induction l with
  | nil => intro _; rfl
  | cons c cs ih =>
    intro h
    have hc : p c = true := h c (by simp)
    simp [List.takeWhile_cons, hc, ih (fun x hx => h x (by simp [hx]))]

/-- `parseFloat` on a rendered string `ds . fs` with digit-character integer
and fraction parts recovers the represented rational. -/
lemma parseFloatChars_int_frac {ds fs : List Char}
    (hds : DigitChars ds) (hfs : DigitChars fs) (hne : ds ≠ []) :
    parseFloatChars (ds ++ '.' :: fs) =
      some ((natOfDigits ds : ℚ) + (natOfDigits fs : ℚ) / 10 ^ fs.length) := by
  obtain ⟨d0, ds', rfl⟩ : ∃ d0 ds', ds = d0 :: ds' := by
    cases ds with
    | nil => exact absurd rfl hne
    | cons a l => exact ⟨a, l, rfl⟩
  obtain ⟨v0, hv0, rfl⟩ := hds d0 (by simp)
  have hfacts := digitChar_facts ⟨v0, hv0⟩
  have hdot : ('.' : Char).isDigit = false := by decide
  have htake := takeWhile_append_stop (p := Char.isDigit)
    (digitChar v0 :: ds') (digitChars_isDigit hds) '.' hdot fs
  simp only [parseFloatChars]
  rw [List.cons_append, List.dropWhile_cons]
  simp only [hfacts.2.2.1, if_false, Bool.false_eq_true]
  rw [if_neg hfacts.2.2.2.1, if_neg hfacts.2.2.2.2.1]
  rw [← List.cons_append, htake.1, htake.2]
  have hne' : ((digitChar v0 :: ds').isEmpty && fs.isEmpty) = false := by simp
  simp only [takeWhile_all fs (digitChars_isDigit hfs), hne', if_false, one_mul,
    Bool.false_eq_true]

/-- Round-trip of the response formatting: parsing the `toFixed(2)` rendering
of `v` yields exactly `round(100·v)/100` (with negative roundings clamped to
`0` by `Int.toNat`; the application only formats values already known to be
nonnegative). -/
lemma parseFloat_toFixed2 (v : ℚ) :
    parseFloat (toFixed2 v) = some (((round (v * 100)).toNat : ℚ) / 100) := by
  have h100 : (0:ℕ) < 100 := by norm_num
  set m : ℕ := (round (v * 100)).toNat with hm
  have hfrac1 : m % 100 / 10 < 10 := by omega
  have hfrac2 : m % 100 % 10 < 10 := by omega
  have hds : DigitChars (natStrChars (m / 100)) := natStrAux_digitChars _ _
  have hfs : DigitChars [digitChar (m % 100 / 10), digitChar (m % 100 % 10)] := by
    intro c hc
    simp at hc
    rcases hc with rfl | rfl
    · exact ⟨_, hfrac1, rfl⟩
    · exact ⟨_, hfrac2, rfl⟩
  have hne : natStrChars (m / 100) ≠ [] := natStrAux_ne_nil _ _ (Nat.lt_succ_self _)
  have hlist : (toFixed2 v).toList =
      natStrChars (m / 100) ++ '.' :: [digitChar (m % 100 / 10), digitChar (m % 100 % 10)] := by
    simp only [toFixed2, ← hm]
    rfl
  rw [parseFloat, hlist, parseFloatChars_int_frac hds hfs hne]
  congr 1
  rw [natOfDigits_natStrChars]
  have hn2 : natOfDigits [digitChar (m % 100 / 10), digitChar (m % 100 % 10)] = m % 100 := by
    have e1 := digitVal_digitChar hfrac1
    have e2 := digitVal_digitChar hfrac2
    simp [natOfDigits, e1, e2]
    omega
  rw [hn2]
  have hq : ((m / 100 : ℕ) : ℚ) * 100 + ((m % 100 : ℕ) : ℚ) = (m : ℚ) := by
    exact_mod_cast (by omega : m / 100 * 100 + m % 100 = m)
  field_simp
  linarith [hq]

/-! ### Predict route lemmas -/

lemma round_thousand : round ((1000 : ℚ)) = 1000 := by
  exact_mod_cast round_intCast (α := ℚ) 1000

/-- Inversion of a 200 response: it can only arise from the final success
branch, so the formatted prediction comes from a value that passed the
`0 ≤ v ≤ 10` gate, and the echoed fields are the request's own. -/
lemma predictPOST_ok_inv {r : ℚ} {pv : String} {up : Upstream} {now p cm pv2 : String}
    {rf : ℚ} {ts : String} {calls : List String}
    (h : predictPOST r pv up now = (Resp.ok p cm pv2 rf ts, calls)) :
    ∃ v, 0 ≤ v ∧ v ≤ 10 ∧ p = toFixed2 v ∧ rf = r ∧ pv2 = pv ∧ ts = now := by
  unfold predictPOST at h
  split at h
  · simp at h
  split at h
  · simp at h
  split at h
  · simp at h
  split at h
  · simp at h
  next pred cm1 calls1 heq =>
    split at h
    · simp at h
    next v =>
      split at h
      · simp at h
      next hv =>
        push_neg at hv
        rw [Prod.mk.injEq, Resp.ok.injEq] at h
        obtain ⟨⟨hp, hcm, hpv, hrf, hts⟩, hcalls⟩ := h
        exact ⟨v, hv.1, hv.2, hp.symm, hrf.symm, hpv.symm, hts.symm⟩

/-- On inputs passing all three validation gates, `predictPOST` is the
post-processing of `runProvider`'s outcome. -/
lemma predictPOST_valid {r : ℚ} {pv : String} (up : Upstream) (now : String)
    (h1 : ¬(r = 0 ∨ pv = "")) (h2 : ¬(r < 0 ∨ 5000 < r)) (h3 : pv ∈ allowedProviders) :
    predictPOST r pv up now =
      match runProvider pv up with
      | (Except.error msg, calls) => (Resp.serverError msg, calls)
      | (Except.ok (pred, cm), calls) =>
        match pred with
        | none => (Resp.serverError "Invalid prediction value", calls)
        | some v =>
          if v < 0 ∨ 10 < v then (Resp.serverError "Invalid prediction value", calls)
          else (Resp.ok (toFixed2 v) cm pv r now, calls) := by
  unfold predictPOST
  rw [if_neg h1, if_neg h2, if_neg (not_not_intro h3)]

/-- C1. The claim asserts that every request with finite `0 ≤ rainfall ≤ 5000`
(including `rainfall = 0`) and an allow-listed provider avoids a 400 and
performs exactly one matching upstream call. The code violates this at
`rainfall = 0`: the guard `if (!rainfall || !provider)` treats the number `0`
as falsy, so the handler answers 400 "Missing required fields" and performs no
upstream call — contradicting the route's own `RAINFALL_CONSTRAINTS.MIN = 0`
and its explicit `rainfall < RAINFALL_CONSTRAINTS.MIN` range check, which is
written to admit `0`. -/
theorem claim_C1_rainfall_zero_rejected :
    ∀ (up : Upstream) (now : String),
      predictPOST 0 "openai" up now = (Resp.clientError "Missing required fields", []) := by
  intro up now
  rfl

/-- C2. The claim asserts `"deepseek"` is accepted and dispatched to the
deepseek upstream branch. The runtime allow-list `['openai', 'anthropic',
'llama']` omits `"deepseek"`, so every deepseek request is answered 400
"Invalid provider" with no upstream call — contradicting the route's own
`RequestBody` type, its dedicated (dead) deepseek branch, and the spec's
provider enumeration. -/
theorem claim_C2_deepseek_rejected :
    ∀ (up : Upstream) (now : String),
      predictPOST 1000 "deepseek" up now = (Resp.clientError "Invalid provider", []) := by
  intro up now
  rfl

/-- C7. Every request with out-of-range rainfall, or a provider outside the
enforced allow-list, is answered with a 400 client error and performs no
upstream call. -/
theorem claim_C7_invalid_input_no_upstream (r : ℚ) (pv : String) (up : Upstream)
    (now : String) (h : r < 0 ∨ 5000 < r ∨ pv ∉ allowedProviders) :
    ∃ msg, predictPOST r pv up now = (Resp.clientError msg, []) := by
  unfold predictPOST
  by_cases h1 : r = 0 ∨ pv = ""
  · rw [if_pos h1]
    exact ⟨_, rfl⟩
  · rw [if_neg h1]
    by_cases h2 : r < 0 ∨ 5000 < r
    · rw [if_pos h2]
      exact ⟨_, rfl⟩
    · rw [if_neg h2]
      by_cases h3 : pv ∉ allowedProviders
      · rw [if_pos h3]
        exact ⟨_, rfl⟩
      · exfalso
        push_neg at h2
        rcases h with hr | hr | hpv
        · exact absurd hr (not_lt.mpr h2.1)
        · exact absurd hr (not_lt.mpr h2.2)
        · exact h3 hpv

theorem claim_C7_witness :
    ((-1 : ℚ) < 0 ∨ (5000:ℚ) < -1 ∨ "openai" ∉ allowedProviders) ∧
      ∃ msg, predictPOST (-1) "openai" ⟨none, "", "", false, none⟩ "now"
        = (Resp.clientError msg, []) :=
  ⟨Or.inl (by norm_num),
    claim_C7_invalid_input_no_upstream (-1) "openai" ⟨none, "", "", false, none⟩ "now"
      (Or.inl (by norm_num))⟩

/-- C8. Whenever the predict handler answers 200, the `rainfall` field of the
response body is the request's `rainfall`, unmodified. -/
theorem claim_C8_rainfall_roundtrip (r : ℚ) (pv : String) (up : Upstream)
    (now p cm pv2 : String) (rf : ℚ) (ts : String) (calls : List String)
    (h : predictPOST r pv up now = (Resp.ok p cm pv2 rf ts, calls)) : rf = r := by
  obtain ⟨v, _, _, _, hrf, _, _⟩ := predictPOST_ok_inv h
  exact hrf

theorem claim_C8_witness :
    predictPOST 900 "openai" ⟨none, "234", "", false, none⟩ "now"
        = (Resp.ok "3.00" "4" "openai" 900 "now", ["openai"]) ∧ (900 : ℚ) = 900 := by
  constructor
  · with_unfolding_all decide
  · exact claim_C8_rainfall_roundtrip 900 "openai" ⟨none, "234", "", false, none⟩ "now"
      "3.00" "4" "openai" 900 "now" ["openai"] (by with_unfolding_all decide)

/-- C6. (i) Whenever the predict handler answers 200, the returned prediction
string parses back to a number within the plausible yield range `[0, 10]`.
(ii) On a validated request whose extracted prediction is `NaN` or outside
that range, the handler answers the 500 error "Invalid prediction value"
(the value is never clamped into range). -/
theorem claim_C6_prediction_range_gate :
    (∀ (r : ℚ) (pv : String) (up : Upstream) (now p cm pv2 : String) (rf : ℚ)
        (ts : String) (calls : List String),
      predictPOST r pv up now = (Resp.ok p cm pv2 rf ts, calls) →
      ∃ x, parseFloat p = some x ∧ 0 ≤ x ∧ x ≤ 10) ∧
    (∀ (r : ℚ) (pv : String) (up : Upstream) (now cm : String) (pred : Option ℚ)
        (calls : List String),
      ¬(r = 0 ∨ pv = "") → ¬(r < 0 ∨ 5000 < r) → pv ∈ allowedProviders →
      runProvider pv up = (Except.ok (pred, cm), calls) →
      (∀ x, pred = some x → x < 0 ∨ 10 < x) →
      predictPOST r pv up now = (Resp.serverError "Invalid prediction value", calls)) := by
  constructor
  · intro r pv up now p cm pv2 rf ts calls h
    obtain ⟨v, hv0, hv10, hp, -, -, -⟩ := predictPOST_ok_inv h
    refine ⟨((round (v * 100)).toNat : ℚ) / 100, by rw [hp, parseFloat_toFixed2], ?_, ?_⟩
    · positivity
    · have hr : round (v * 100) ≤ round ((1000 : ℚ)) := by
        rw [round_eq, round_eq]
        exact Int.floor_le_floor (by linarith)
      rw [round_thousand] at hr
      have hn : (round (v * 100)).toNat ≤ 1000 := by omega
      have hq : ((round (v * 100)).toNat : ℚ) ≤ 1000 := by exact_mod_cast hn
      linarith
  · intro r pv up now cm pred calls h1 h2 h3 hrun hbad
    rw [predictPOST_valid up now h1 h2 h3, hrun]
    cases pred with
    | none => rfl
    | some x =>
      simp only
      rw [if_pos (hbad x rfl)]

theorem claim_C6_witness :
    (∃ x, parseFloat "3.00" = some x ∧ 0 ≤ x ∧ x ≤ 10) ∧
      predictPOST 900 "openai" ⟨none, "2ex", "", false, none⟩ "now"
        = (Resp.serverError "Invalid prediction value", ["openai"]) := by
  constructor
  · exact claim_C6_prediction_range_gate.1 900 "openai" ⟨none, "234", "", false, none⟩
      "now" "3.00" "4" "openai" 900 "now" ["openai"] (by with_unfolding_all decide)
  · refine claim_C6_prediction_range_gate.2 900 "openai" ⟨none, "2ex", "", false, none⟩
      "now" "x" (parseCharAt "2ex" 1) ["openai"] (by decide) (by decide) (by decide)
      (by with_unfolding_all rfl) ?_
    intro x hx
    rw [show parseCharAt "2ex" 1 = none from by with_unfolding_all decide] at hx
    exact Option.noConfusion hx

/-- C10. For provider `"anthropic"`, on every validated request whose upstream
reply has a (non-empty) first content block, the handler never answers 200:
the code parses `parseFloat` of character 1 of the block's *type string*
(`"text"` or `"tool_use"`, so the character is `e` or `o`, never a digit),
which is `NaN`, and the range gate turns that into the 500 error
"Invalid prediction value" after the single anthropic upstream call. -/
theorem claim_C10_anthropic_never_200 (r : ℚ) (bt : AnthropicBlockType) (up : Upstream)
    (now : String) (h0 : 0 < r) (h5 : r ≤ 5000) (hb : up.anthropicBlock = some bt) :
    parseCharAt (blockTypeString bt) 1 = none ∧
      predictPOST r "anthropic" up now
        = (Resp.serverError "Invalid prediction value", ["anthropic"]) := by
  have hparse : parseCharAt (blockTypeString bt) 1 = none := by
    cases bt <;> with_unfolding_all decide
  refine ⟨hparse, ?_⟩
  have h1 : ¬(r = 0 ∨ "anthropic" = "") := by
    rintro (hr | hs)
    · exact absurd hr h0.ne'
    · exact absurd hs (by decide)
  have h2 : ¬(r < 0 ∨ 5000 < r) := by
    rintro (hr | hr) <;> linarith
  have h3 : "anthropic" ∈ allowedProviders := by decide
  have hrun : runProvider "anthropic" up =
      (Except.ok (parseCharAt (blockTypeString bt) 1,
        if bt = AnthropicBlockType.text then "x" else "o"), ["anthropic"]) := by
    unfold runProvider
    rw [hb]
    cases bt <;> rfl
  rw [predictPOST_valid up now h1 h2 h3, hrun, hparse]

theorem claim_C10_witness :
    (0 : ℚ) < 1000 ∧ (1000 : ℚ) ≤ 5000 ∧
      (parseCharAt (blockTypeString AnthropicBlockType.text) 1 = none ∧
        predictPOST 1000 "anthropic" ⟨some AnthropicBlockType.text, "", "", false, none⟩ "now"
          = (Resp.serverError "Invalid prediction value", ["anthropic"])) :=
  ⟨by norm_num, by norm_num,
    claim_C10_anthropic_never_200 1000 AnthropicBlockType.text
      ⟨some AnthropicBlockType.text, "", "", false, none⟩ "now"
      (by norm_num) (by norm_num) rfl⟩

/-! ### Client chart-state lemmas -/

lemma mem_insertByRainfall {x p : PredictionData} :
    ∀ l, x ∈ insertByRainfall p l ↔ x = p ∨ x ∈ l := by
  intro l
  induction l with
  | nil => simp [insertByRainfall]
  | cons q t ih =>
    by_cases h : p.rainfall ≤ q.rainfall
    · simp [insertByRainfall, h]
    · simp only [insertByRainfall, if_neg h, List.mem_cons, ih]
      tauto

lemma sorted_insertByRainfall {p : PredictionData} :
    ∀ {l}, List.Pairwise (fun a b : PredictionData => a.rainfall ≤ b.rainfall) l →
      List.Pairwise (fun a b : PredictionData => a.rainfall ≤ b.rainfall)
        (insertByRainfall p l) := by
  intro l
  induction l with
  | nil => intro _; simp [insertByRainfall]
  | cons q t ih =>
    intro h
    rw [List.pairwise_cons] at h
    obtain ⟨hq, ht⟩ := h
    by_cases hpq : p.rainfall ≤ q.rainfall
    · simp only [insertByRainfall, if_pos hpq]
      rw [List.pairwise_cons]
      refine ⟨?_, List.pairwise_cons.mpr ⟨hq, ht⟩⟩
      intro b hb
      rcases List.mem_cons.mp hb with rfl | hb'
      · exact hpq
      · exact le_trans hpq (hq b hb')
    · simp only [insertByRainfall, if_neg hpq]
      rw [List.pairwise_cons]
      refine ⟨?_, ih ht⟩
      intro b hb
      rcases (mem_insertByRainfall t).mp hb with rfl | hb'
      · exact le_of_not_le hpq
      · exact hq b hb'

lemma sorted_sortByRainfall :
    ∀ l, List.Pairwise (fun a b : PredictionData => a.rainfall ≤ b.rainfall)
      (sortByRainfall l) := by
  intro l
  induction l with
  | nil => simp [sortByRainfall]
  | cons p t ih => exact sorted_insertByRainfall ih

/-- Stability of the sort, phrased through filters: filtering the sorted list
by any fixed `(rainfall, provider)` key returns the same-key elements in their
original relative order, because the insertion point of `p` only ever skips
elements of strictly smaller rainfall. -/
lemma filter_insertByRainfall (k : ℚ × ClientProvider) (p : PredictionData) :
    ∀ s : List PredictionData,
      (insertByRainfall p s).filter (fun x => decide (pairKey x = k)) =
        if pairKey p = k then p :: s.filter (fun x => decide (pairKey x = k))
        else s.filter (fun x => decide (pairKey x = k)) := by
  intro s
  induction s with
  | nil =>
    by_cases hp : pairKey p = k <;> simp [insertByRainfall, List.filter, hp]
  | cons q t ih =>
    by_cases hpq : p.rainfall ≤ q.rainfall
    · simp only [insertByRainfall, if_pos hpq]
      by_cases hp : pairKey p = k <;> simp [List.filter_cons, hp]
    · simp only [insertByRainfall, if_neg hpq]
      by_cases hq : pairKey q = k
      · by_cases hp : pairKey p = k
        · exfalso
          have h1 : p.rainfall = k.1 := congrArg Prod.fst hp
          have h2 : q.rainfall = k.1 := congrArg Prod.fst hq
          exact hpq (le_of_eq (h1.trans h2.symm))
        · simp [List.filter_cons, hq, hp, ih]
      · by_cases hp : pairKey p = k <;> simp [List.filter_cons, hq, hp, ih]

lemma filter_sortByRainfall (k : ℚ × ClientProvider) :
    ∀ l : List PredictionData,
      (sortByRainfall l).filter (fun x => decide (pairKey x = k)) =
        l.filter (fun x => decide (pairKey x = k)) := by
  intro l
  induction l with
  | nil => rfl
  | cons p t ih =>
    simp only [sortByRainfall]
    rw [filter_insertByRainfall]
    by_cases hp : pairKey p = k <;> simp [List.filter_cons, hp, ih]

/-- The kept-first deduplication keeps, for any key not yet seen, exactly the
first element of that key. -/
lemma filter_keepFirstAux (k : ℚ × ClientProvider) :
    ∀ (l : List PredictionData) (seen : List (ℚ × ClientProvider)),
      (keepFirstAux seen l).filter (fun x => decide (pairKey x = k)) =
        if k ∈ seen then [] else (l.filter (fun x => decide (pairKey x = k))).take 1 := by
  intro l
  induction l with
  | nil => intro seen; by_cases h : k ∈ seen <;> simp [keepFirstAux, h]
  | cons p t ih =>
    intro seen
    by_cases hseen : pairKey p ∈ seen
    · simp only [keepFirstAux, if_pos hseen]
      rw [ih seen]
      by_cases hk : k ∈ seen
      · simp [hk]
      · have hpk : ¬ pairKey p = k := fun he => hk (he ▸ hseen)
        simp [hk, List.filter_cons, hpk]
    · simp only [keepFirstAux, if_neg hseen]
      rw [List.filter_cons, ih (pairKey p :: seen)]
      by_cases hpk : pairKey p = k
      · have hkseen : ¬ k ∈ seen := fun hc => hseen (hpk ▸ hc)
        simp [hpk, hkseen, List.filter_cons]
      · have hmem : (k ∈ pairKey p :: seen) ↔ k ∈ seen := by
          rw [List.mem_cons]
          exact ⟨fun h => h.resolve_left (fun he => hpk he.symm), Or.inr⟩
        by_cases hk : k ∈ seen <;> simp [hmem, hk, hpk, List.filter_cons]

lemma keepFirstAux_sublist :
    ∀ (l : List PredictionData) (seen), List.Sublist (keepFirstAux seen l) l := by
  intro l
  induction l with
  | nil => intro seen; simp [keepFirstAux]
  | cons p t ih =>
    intro seen
    by_cases h : pairKey p ∈ seen
    · simp only [keepFirstAux, if_pos h]
      exact (ih seen).cons p
    · simp only [keepFirstAux, if_neg h]
      exact (ih _).cons₂ p

lemma pairKey_not_seen_of_mem :
    ∀ (l : List PredictionData) (seen) (x), x ∈ keepFirstAux seen l → pairKey x ∉ seen := by
  intro l
  induction l with
  | nil => intro seen x hx; simp [keepFirstAux] at hx
  | cons p t ih =>
    intro seen x hx
    by_cases h : pairKey p ∈ seen
    · simp only [keepFirstAux, if_pos h] at hx
      exact ih seen x hx
    · simp only [keepFirstAux, if_neg h] at hx
      rcases List.mem_cons.mp hx with rfl | hx'
      · exact h
      · intro hc
        exact ih _ x hx' (List.mem_cons_of_mem _ hc)

lemma pairwise_keys_keepFirstAux :
    ∀ (l : List PredictionData) (seen),
      List.Pairwise (fun a b => pairKey a ≠ pairKey b) (keepFirstAux seen l) := by
  intro l
  induction l with
  | nil => intro seen; simp [keepFirstAux]
  | cons p t ih =>
    intro seen
    by_cases h : pairKey p ∈ seen
    · simp only [keepFirstAux, if_pos h]
      exact ih seen
    · simp only [keepFirstAux, if_neg h]
      rw [List.pairwise_cons]
      refine ⟨?_, ih _⟩
      intro b hb he
      exact pairKey_not_seen_of_mem t _ b hb (he ▸ List.mem_cons_self _ _)

/-- C3 (counterexample). The claim says the newly submitted point replaces the
already-charted point of the same `(rainfall, provider)` pair. In fact the
update keeps the *old* point and discards the new one: the new point is
appended, the sort is stable (equal rainfall keeps the old point first), and
the `findIndex` filter keeps the first occurrence of each key. Submitting
`(900, openai)` with yield 3 over a charted `(900, openai)` with yield 2
leaves the chart equal to the old singleton; the new point is absent. -/
theorem claim_C3_counterexample :
    handlePredictUpdate [⟨900, 2, ClientProvider.openai, "t1", none⟩]
        ⟨900, 3, ClientProvider.openai, "t2", none⟩
      = [⟨900, 2, ClientProvider.openai, "t1", none⟩] ∧
    (⟨900, 3, ClientProvider.openai, "t2", none⟩ : PredictionData)
      ∉ handlePredictUpdate [⟨900, 2, ClientProvider.openai, "t1", none⟩]
          ⟨900, 3, ClientProvider.openai, "t2", none⟩ := by
  constructor
  · with_unfolding_all decide
  · with_unfolding_all decide

/-- C3 (amended). After submitting a prediction whose `(rainfall, provider)`
pair already occurs in the chart, the chart contains exactly one point with
that pair, and that point is one of the *previously* charted points: the
newly submitted point is dropped (unless it was already charted verbatim),
rather than replacing the old one. -/
theorem claim_C3_duplicate_submit_keeps_old (prev : List PredictionData)
    (np q : PredictionData) (hq : q ∈ prev) (hk : pairKey q = pairKey np) :
    (∃ r0, r0 ∈ prev ∧
      (handlePredictUpdate prev np).filter (fun x => decide (pairKey x = pairKey np))
        = [r0]) ∧
    (np ∉ prev → np ∉ handlePredictUpdate prev np) := by
  have hfilter : (handlePredictUpdate prev np).filter
        (fun x => decide (pairKey x = pairKey np))
      = ((prev ++ [np]).filter (fun x => decide (pairKey x = pairKey np))).take 1 := by
    unfold handlePredictUpdate keepFirst
    rw [filter_keepFirstAux, if_neg (List.not_mem_nil _), filter_sortByRainfall]
  rw [List.filter_append] at hfilter
  have hl : q ∈ prev.filter (fun x => decide (pairKey x = pairKey np)) :=
    List.mem_filter.mpr ⟨hq, by simp [hk]⟩
  obtain ⟨r0, rest, hcase⟩ :
      ∃ r0 rest, prev.filter (fun x => decide (pairKey x = pairKey np)) = r0 :: rest := by
    cases hc : prev.filter (fun x => decide (pairKey x = pairKey np)) with
    | nil => rw [hc] at hl; simp at hl
    | cons a l => exact ⟨a, l, rfl⟩
  have hone : (handlePredictUpdate prev np).filter
      (fun x => decide (pairKey x = pairKey np)) = [r0] := by
    rw [hfilter, hcase]
    rfl
  have hr0 : r0 ∈ prev := by
    have : r0 ∈ prev.filter (fun x => decide (pairKey x = pairKey np)) := by
      rw [hcase]; exact List.mem_cons_self _ _
    exact (List.mem_filter.mp this).1
  refine ⟨⟨r0, hr0, hone⟩, ?_⟩
  intro hnotin hmem
  have hnp : np ∈ (handlePredictUpdate prev np).filter
      (fun x => decide (pairKey x = pairKey np)) :=
    List.mem_filter.mpr ⟨hmem, by simp⟩
  rw [hone] at hnp
  rcases List.mem_singleton.mp hnp with rfl
  exact hnotin hr0

theorem claim_C3_witness :
    ((⟨1200, 2, ClientProvider.openai, "t1", none⟩ : PredictionData)
        ∈ [(⟨1200, 2, ClientProvider.openai, "t1", none⟩ : PredictionData)]) ∧
    (∃ r0, r0 ∈ [(⟨1200, 2, ClientProvider.openai, "t1", none⟩ : PredictionData)] ∧
      (handlePredictUpdate [⟨1200, 2, ClientProvider.openai, "t1", none⟩]
          ⟨1200, 5, ClientProvider.openai, "t2", none⟩).filter
        (fun x => decide (pairKey x
          = pairKey (⟨1200, 5, ClientProvider.openai, "t2", none⟩ : PredictionData)))
        = [r0]) := by
  refine ⟨List.mem_singleton_self _, ?_⟩
  exact (claim_C3_duplicate_submit_keeps_old
    [⟨1200, 2, ClientProvider.openai, "t1", none⟩]
    ⟨1200, 5, ClientProvider.openai, "t2", none⟩
    ⟨1200, 2, ClientProvider.openai, "t1", none⟩
    (List.mem_singleton_self _) (by with_unfolding_all decide)).1

/-- C4 (counterexample). The claim says the chart invariant (ascending
rainfall, at most one point per `(rainfall, provider)` pair) holds after
*every* update, CSV upload included. The upload handler merely appends the
uploaded rows, so uploading rows with rainfall 1500 then 800 onto an empty
chart yields a list that is not sorted ascending by rainfall. -/
theorem claim_C4_counterexample :
    ¬ (List.Pairwise (fun a b : PredictionData => a.rainfall ≤ b.rainfall)
        (handleFileUploadUpdate [] [(1500, 17/5), (800, 21/10)] "t") ∧
       List.Pairwise (fun a b : PredictionData => pairKey a ≠ pairKey b)
        (handleFileUploadUpdate [] [(1500, 17/5), (800, 21/10)] "t")) := by
  intro h
  have hs := h.1
  have heq : handleFileUploadUpdate [] [(1500, 17/5), (800, 21/10)] "t"
      = [⟨1500, 17/5, ClientProvider.historical, "t", none⟩,
         ⟨800, 21/10, ClientProvider.historical, "t", none⟩] := rfl
  rw [heq, List.pairwise_cons] at hs
  have h2 := hs.1 ⟨800, 21/10, ClientProvider.historical, "t", none⟩ (by simp)
  norm_num at h2

/-- C4 (amended). After a predict form submit, the chart invariant holds: the
list is sorted ascending by rainfall and contains at most one point per
`(rainfall, provider)` pair. (The CSV upload update appends rows as-is and
does not maintain this invariant.) -/
theorem claim_C4_predict_submit_invariant (prev : List PredictionData)
    (np : PredictionData) :
    List.Pairwise (fun a b : PredictionData => a.rainfall ≤ b.rainfall)
        (handlePredictUpdate prev np) ∧
    List.Pairwise (fun a b : PredictionData => pairKey a ≠ pairKey b)
        (handlePredictUpdate prev np) := by
  constructor
  · exact List.Pairwise.sublist (keepFirstAux_sublist _ _)
      (sorted_sortByRainfall (prev ++ [np]))
  · exact pairwise_keys_keepFirstAux _ _

/-! ### Upload route lemmas -/

/-- Property access on a `columns: true` record built by zipping the header
with a row of equal length is positional lookup at the column's first index. -/
lemma assocLookup_zip (k : List Char) :
    ∀ (hs vs : List (List Char)), hs.length = vs.length →
      assocLookup k (hs.zip vs) =
        match colIndex k hs with
        | none => none
        | some i => vs[i]? := by
  intro hs
  induction hs with
  | nil => intro vs h; simp [assocLookup, colIndex]
  | cons h0 t ih =>
    intro vs hlen
    cases vs with
    | nil => simp at hlen
    | cons v0 vt =>
      simp only [List.zip_cons_cons, assocLookup, colIndex]
      by_cases he : h0 = k
      · simp [he]
      · simp only [if_neg he]
        have hzip : List.zipWith Prod.mk t vt = t.zip vt := rfl
        rw [hzip, ih vt (by simpa using hlen)]
        cases hc : colIndex k t with
        | none => simp
        | some i2 => simp

lemma lookupParse_eq (k : List Char) (hs vs : List (List Char))
    (hlen : hs.length = vs.length) (i : ℕ) (hi : colIndex k hs = some i) :
    lookupParse k (hs.zip vs) = (vs[i]?).bind parseFloatChars := by
  unfold lookupParse
  rw [assocLookup_zip k hs vs hlen, hi]
  show (match vs[i]? with | none => none | some v => parseFloatChars v)
      = (vs[i]?).bind parseFloatChars
  cases vs[i]? with
  | none => rfl
  | some v => rfl

/-- C5 (counterexample). The claim says a CSV lacking its header row fails
with `success:false`. It does not: `csv-parse` with `columns: true` cannot
detect a missing header — it consumes the first data row `800,2.1` as the
header, the remaining row has matching arity, parsing succeeds, and the
handler returns `success:true` whose single record has `NaN` rainfall and
yield (there are no `rainfall`/`yield` columns to look up). -/
theorem claim_C5_counterexample :
    uploadPOST (some "800,2.1\n1500,3.4") = UploadResp.okData [(none, none)] := by
  with_unfolding_all decide

/-- C5 (amended). The upload handler returns `success:false` for an uploaded
file precisely when the CSV is structurally inconsistent (some non-empty line
has a different field count from the first); in particular a header-less but
structurally consistent CSV is answered `success:true`, its first data row
silently consumed as the header. (A missing file is the other, trivial,
`success:false` case.) -/
theorem claim_C5_fail_iff_structural (s : String) :
    (∃ d, uploadPOST (some s) = UploadResp.okData d) ↔ csvWellFormed s.toList = true := by
  unfold csvWellFormed
  cases hnl : nonEmptyLines s.toList with
  | nil =>
    have hp : parseCSV s.toList = Except.ok [] := by
      unfold parseCSV; rw [hnl]
    simp only [uploadPOST]
    rw [hp]
    simp
  | cons h0 rows =>
    by_cases hall : (rows.all (fun r => (splitFields r).length = (splitFields h0).length)) = true
    · have hp : parseCSV s.toList
          = Except.ok (rows.map (fun r => (splitFields h0).zip (splitFields r))) := by
        unfold parseCSV; rw [hnl]; simp [hall]
      simp only [uploadPOST]
      rw [hp]
      simp [hall]
    · have hp : parseCSV s.toList = Except.error "Invalid Record Length" := by
        unfold parseCSV; rw [hnl]; simp [hall]
      simp only [uploadPOST]
      rw [hp]
      simp [hall]

theorem claim_C5_witness :
    csvWellFormed ("800,2.1\n1500,3.4").toList = true ∧
      ∃ d, uploadPOST (some "800,2.1\n1500,3.4") = UploadResp.okData d :=
  ⟨by decide, (claim_C5_fail_iff_structural "800,2.1\n1500,3.4").mpr (by decide)⟩

/-- C9. (i) For every structurally consistent CSV whose header has `rainfall`
and `yield` columns (at positions `i` and `j`), the upload handler answers
`success:true` with one output record per data row, in input order, holding
the numeric parses of that row's `rainfall` and `yield` fields — with no
numeric validation, so unparseable fields come back as `NaN` rather than
rejecting the request. (ii) In particular the two rows `800,2.1` and
`1500,3.4` come back as `[{rainfall:800, yield:2.1}, {rainfall:1500,
yield:3.4}]`. -/
theorem claim_C9_upload_row_mapping :
    (∀ (s : String) (h0 : List Char) (rows : List (List Char)) (i j : ℕ),
      nonEmptyLines s.toList = h0 :: rows →
      rows.all (fun r => (splitFields r).length = (splitFields h0).length) = true →
      colIndex ("rainfall".toList) (splitFields h0) = some i →
      colIndex ("yield".toList) (splitFields h0) = some j →
      uploadPOST (some s) = UploadResp.okData (rows.map (fun r =>
        (((splitFields r)[i]?).bind parseFloatChars,
         ((splitFields r)[j]?).bind parseFloatChars)))) ∧
    uploadPOST (some "rainfall,yield\n800,2.1\n1500,3.4")
      = UploadResp.okData [(some 800, some (21/10)), (some 1500, some (17/5))] := by
  constructor
  · intro s h0 rows i j hnl hall hi hj
    have hp : parseCSV s.toList
        = Except.ok (rows.map (fun r => (splitFields h0).zip (splitFields r))) := by
      unfold parseCSV; rw [hnl]; simp [hall]
    simp only [uploadPOST]
    rw [hp]
    show UploadResp.okData ((rows.map (fun r => (splitFields h0).zip (splitFields r))).map
        (fun rec => (lookupParse "rainfall".toList rec, lookupParse "yield".toList rec))) = _
    rw [List.map_map]
    refine congrArg UploadResp.okData (List.map_congr_left ?_)
    intro r hr
    have hlen : (splitFields h0).length = (splitFields r).length := by
      have h := of_decide_eq_true (List.all_eq_true.mp hall r hr)
      exact h.symm
    simp only [Function.comp_apply]
    rw [lookupParse_eq _ _ _ hlen i hi, lookupParse_eq _ _ _ hlen j hj]
  · with_unfolding_all decide

theorem claim_C9_witness :
    uploadPOST (some "rainfall,yield\nabc,2.1")
      = UploadResp.okData [(none, some (21/10))] := by
  have h := claim_C9_upload_row_mapping.1 "rainfall,yield\nabc,2.1"
    ("rainfall,yield".toList) ["abc,2.1".toList] 0 1
    (by decide) (by decide) (by decide) (by decide)
  rw [h]
  with_unfolding_all decide
